import Mathlib

/-!
# Verification of the Memory_Agent repository

Shallow embedding of the memory engine of the Memory_Agent repository
(FastAPI chat agent with layered conversational memory) and proofs about
its specified properties.

Conventions of the embedding:
* Python strings are modelled as lists of Unicode codepoints (`PyStr := List Nat`);
  `str.lower()` / `str.strip()` are modelled on the ASCII fragment, which covers
  the whole canonical-key vocabulary and every literal the code manipulates.
* Python floats (confidence / importance scores) are modelled as exact rationals.
* Database state (the `structured_facts` table) is modelled as a list of rows; the
  SQL statements of `structured_facts.py` are translated to list transformations
  that follow PostgreSQL's documented semantics for the statements used.
* Fallible external calls (LLM generation, JSON parsing, row persistence) are
  oracle parameters returning `Except`/`Bool` outcomes, so theorems quantify over
  every possible environment behaviour.
-/

/-- Python `str`, modelled as the list of its codepoints. -/
def PyStr : Type := List Nat

instance : DecidableEq PyStr := by
  unfold PyStr
  infer_instance

instance : Append PyStr := ⟨fun a b => List.append a b⟩

instance : EmptyCollection PyStr := ⟨([] : List Nat)⟩

/-- Convert a Lean string literal to its codepoint list (used only to write
down the concrete strings appearing in the source). -/
def s2c (s : String) : PyStr := s.data.map Char.toNat

/-- The codepoints Python `str.strip()` removes (ASCII whitespace). -/
def isSpaceCode (n : Nat) : Bool :=
  n = 32 || n = 9 || n = 10 || n = 13 || n = 11 || n = 12

/-- ASCII lower-casing of one codepoint, the fragment of Python `str.lower()`
exercised by the code. -/
def lowerCode (n : Nat) : Nat :=
  if 65 ≤ n ∧ n ≤ 90 then n + 32 else n

/-- Python `str.lower()` (ASCII fragment). -/
def pyLower (s : PyStr) : PyStr := List.map lowerCode s

/-- Python `str.lstrip()`. -/
def pyLstrip (s : PyStr) : PyStr := List.dropWhile isSpaceCode s

/-- Python `str.rstrip()`. -/
def pyRstrip (s : PyStr) : PyStr :=
  List.reverse (List.dropWhile isSpaceCode (List.reverse s))

/-- Python `str.strip()`. -/
def pyStrip (s : PyStr) : PyStr := pyRstrip (pyLstrip s)

/-- Length of a Python string. -/
def pyLen (s : PyStr) : Nat := List.length s

/-- One conversation turn, the dict `{"role": role, "content": content}`
appended by `SessionMemory.add` (src/session.py). -/
structure Turn where
  role : PyStr
  content : PyStr
deriving DecidableEq

/-- Python tail slice `l[-k:]`.  Crucially, for `k = 0` Python's `l[-0:]` is
`l[0:]`, the *whole* list, not the empty suffix. -/
def pyTailSlice (l : List Turn) (k : Nat) : List Turn :=
  if k = 0 then l else List.drop (l.length - k) l

/-- `SessionMemory` (src/session.py): sliding-window short-term memory. -/
structure SessionMemory where
  history : List Turn
  max_history : Nat
deriving DecidableEq

/-- `SessionMemory.__init__` with `MAX_SHORT_TERM = 6` (src/config.py line 17). -/
def SessionMemory.new : SessionMemory := ⟨[], 6⟩

/-- `SessionMemory.add` (src/session.py lines 11-14): append the turn, and if
the length exceeds `max_history`, keep `history[-max_history:]`. -/
def SessionMemory.add (s : SessionMemory) (role content : PyStr) : SessionMemory :=
  let h := s.history ++ [⟨role, content⟩]
  if h.length > s.max_history then
    { s with history := pyTailSlice h s.max_history }
  else
    { s with history := h }

/-- `SessionMemory.get` (src/session.py lines 16-17). -/
def SessionMemory.get (s : SessionMemory) : List Turn := s.history

/-- Fold a sequence of `add` calls over a fresh window of capacity `n`. -/
def runAdds (n : Nat) (ts : List Turn) : SessionMemory :=
  ts.foldl (fun s t => s.add t.role t.content) ⟨[], n⟩

theorem pyTailSlice_of_pos (l : List Turn) (k : Nat) (hk : k ≠ 0) :
    pyTailSlice l k = List.drop (l.length - k) l := by
  simp [pyTailSlice, hk]

/-- One `add` step on a window already in last-`n` form stays in last-`n` form
(for positive capacity `n`). -/
theorem add_drop_step (n : Nat) (hn : 1 ≤ n) (ts : List Turn) (t : Turn) :
    (SessionMemory.add ⟨List.drop (ts.length - n) ts, n⟩ t.role t.content).history
      = List.drop ((ts ++ [t]).length - n) (ts ++ [t]) := by
  rcases t with ⟨r, c⟩
  by_cases h : ts.length < n
  · have h1 : ts.length - n = 0 := by omega
    have h2 : (ts ++ [(⟨r, c⟩ : Turn)]).length - n = 0 := by
      simp only [List.length_append, List.length_cons, List.length_nil]
      omega
    simp only [SessionMemory.add, h1, h2, List.drop_zero]
    have hlen : ¬ (n < ts.length + 1) := by omega
    simp [hlen]
  · push_neg at h
    have hd : (List.drop (ts.length - n) ts).length = n := by
      simp only [List.length_drop]
      omega
    simp only [SessionMemory.add]
    have hgt : (List.drop (ts.length - n) ts ++ [(⟨r, c⟩ : Turn)]).length > n := by
      simp only [List.length_append, hd, List.length_cons, List.length_nil]
      omega
    simp only [hgt, if_pos]
    have hn0 : n ≠ 0 := by omega
    rw [pyTailSlice_of_pos _ _ hn0]
    have hlen2 : (List.drop (ts.length - n) ts ++ [(⟨r, c⟩ : Turn)]).length - n = 1 := by
      simp only [List.length_append, hd, List.length_cons, List.length_nil]
      omega
    rw [hlen2]
    have hdrop1 : List.drop 1 (List.drop (ts.length - n) ts ++ [(⟨r, c⟩ : Turn)])
        = List.drop 1 (List.drop (ts.length - n) ts) ++ [(⟨r, c⟩ : Turn)] := by
      apply List.drop_append_of_le_length
      omega
    rw [hdrop1, List.drop_drop]
    have harr : (ts ++ [(⟨r, c⟩ : Turn)]).length - n = 1 + (ts.length - n) := by
      simp only [List.length_append, List.length_cons, List.length_nil]
      omega
    rw [harr]
    rw [List.drop_append_of_le_length (by omega)]
    have hsw : ts.length - n + 1 = 1 + (ts.length - n) := by omega
    rw [hsw]

/-- After any sequence of adds on a fresh window of positive capacity `n`,
the history is exactly the last `min(#adds, n)` turns, in order. -/
theorem runAdds_history (n : Nat) (hn : 1 ≤ n) (ts : List Turn) :
    (runAdds n ts).history = List.drop (ts.length - n) ts ∧
    (runAdds n ts).max_history = n := by
  induction ts using List.reverseRecOn with
  | nil => simp [runAdds]
  | append_singleton ts t ih =>
    obtain ⟨h1, h2⟩ := ih
    have hstate : runAdds n (ts ++ [t]) = (runAdds n ts).add t.role t.content := by
      unfold runAdds
      rw [List.foldl_append]
      simp
    have hmk : runAdds n ts = ⟨List.drop (ts.length - n) ts, n⟩ := by
      cases hr : runAdds n ts with
      | mk hist mh =>
        rw [hr] at h1 h2
        simp only at h1 h2
        rw [h1, h2]
    rw [hstate, hmk]
    constructor
    · exact add_drop_step n hn ts t
    · simp only [SessionMemory.add]
      split <;> rfl

/-- Three concrete turns used for the C7 witness. -/
def demoTurns : List Turn :=
  [⟨s2c "user", s2c "a"⟩, ⟨s2c "assistant", s2c "b"⟩, ⟨s2c "user", s2c "c"⟩]

/-- C7 (counterexample): the claim quantifies over *every* capacity `N`, but at
`N = 0` Python's trimming slice `history[-0:]` is `history[0:]`, the whole
list, so a single `add` on a capacity-0 window leaves 1 turn: the window
length exceeds the capacity. -/
theorem c7_counterexample :
    (SessionMemory.add ⟨[], 0⟩ (s2c "user") (s2c "hi")).get.length = 1 ∧
    ¬ (SessionMemory.add ⟨[], 0⟩ (s2c "user") (s2c "hi")).get.length ≤ 0 := by
  decide

/-- C7 (amended): for every capacity `N ≥ 1` and every sequence of `add` calls
on a fresh `SessionMemory` of capacity `N`, `get()` has length at most `N` and
equals the last `min(#adds, N)` added turns in insertion order (`List.drop
(ts.length - N) ts` is exactly that suffix). -/
theorem c7_window_bound (n : Nat) (hn : 1 ≤ n) (ts : List Turn) :
    (runAdds n ts).get.length ≤ n ∧
    (runAdds n ts).get = List.drop (ts.length - n) ts := by
  obtain ⟨h1, _⟩ := runAdds_history n hn ts
  refine ⟨?_, h1⟩
  rw [SessionMemory.get, h1, List.length_drop]
  omega

/-- C7 (witness): the amended theorem applied at capacity 2 and three adds. -/
theorem c7_window_bound_witness :
    (runAdds 2 demoTurns).get.length ≤ 2 ∧
    (runAdds 2 demoTurns).get = List.drop (demoTurns.length - 2) demoTurns :=
  c7_window_bound 2 (by decide) demoTurns

/-- `SUMMARIZE_EVERY` (src/memory/summarizer.py line 16). -/
def SUMMARIZE_EVERY : Nat := 20

/-- `should_summarize` (src/memory/summarizer.py lines 77-79). -/
def should_summarize (session_length : Nat) : Bool :=
  SUMMARIZE_EVERY ≤ session_length

/-- Python `"sep".join(parts)`. -/
def pyJoin (sep : PyStr) (parts : List PyStr) : PyStr :=
  List.intercalate (sep : List Nat) parts

/-- `summarize_turns` (src/memory/summarizer.py lines 31-76): asks the LLM for a
summary; the whole network call is wrapped in try/except, so the outcome is an
oracle `llm`: on success the stripped response text, on any exception the
fallback `" | ".join(t["content"][:50] for t in turns[:5])`. -/
def summarize_turns (llm : Except Unit PyStr) (turns : List Turn) : PyStr :=
  match llm with
  | Except.ok response => pyStrip response
  | Except.error _ =>
      pyJoin (s2c " | ") ((turns.take 5).map (fun t => (t.content : List Nat).take 50))

/-- `compress_session_to_episodic` (src/memory/summarizer.py lines 82-127).
`llm` is the summarization outcome oracle and `storeOk` the outcome of
`store_episode` (src/memory/episodic_store.py), itself try/except-guarded and
modelled as a Bool result. -/
def compress_session_to_episodic (llm : Except Unit PyStr) (storeOk : Bool)
    (_user_id : PyStr) (session_history : List Turn) (_turn_offset : Int) : Bool :=
  if session_history.length < 5 then false
  else
    let summary := summarize_turns llm session_history
    if summary = ({} : PyStr) ∨ pyLen summary < 10 then false
    else storeOk

/-- The summarization branch of the `/chat` endpoint (src/app.py lines 73-85):
if `should_summarize(len(session.history))`, take `to_compress =
session.history[:-10]`; when nonempty, submit
`compress_session_to_episodic(user_id, to_compress, current_turn -
len(session.history))` to the background executor and immediately set
`session.history = session.history[-10:]`.  Returns the new window together
with the submitted batch and turn offset (`none` when nothing was submitted).
The executor's eventual result is not consulted anywhere in the branch. -/
def chatSummarizeBranch (history : List Turn) (current_turn : Nat) :
    List Turn × Option (List Turn × Int) :=
  if should_summarize history.length then
    let to_compress := history.take (history.length - 10)
    if to_compress = [] then (history, none)
    else (pyTailSlice history 10,
          some (to_compress, (current_turn : Int) - (history.length : Int)))
  else (history, none)

/-- The per-request session-state slice of the `/chat` endpoint (src/app.py
lines 59-128): increment the user's turn counter, `session.add("user",
message)`, run the summarization branch, and after the LLM reply
`session.add("assistant", response)`.  `dispatched` records whether any
request so far submitted a compression batch. -/
structure ChatState where
  session : SessionMemory
  turn_counter : Nat
  dispatched : Bool

/-- Initial per-user state: fresh `SessionMemory()` and turn counter 0
(src/app.py lines 63-65). -/
def chatInit : ChatState := ⟨SessionMemory.new, 0, false⟩

/-- One `/chat` request for the user, with the assistant `response` as an
oracle input. -/
def chatStep (st : ChatState) (message response : PyStr) : ChatState :=
  let counter := st.turn_counter + 1
  let s1 := st.session.add (s2c "user") message
  let br := chatSummarizeBranch s1.history counter
  let s2 := { s1 with history := br.1 }
  let s3 := s2.add (s2c "assistant") response
  ⟨s3, counter, st.dispatched || br.2.isSome⟩

/-- A whole `/chat` conversation: fold `chatStep` over the request/response
pairs, starting from the fresh state. -/
def chatRun (reqs : List (PyStr × PyStr)) : ChatState :=
  reqs.foldl (fun st p => chatStep st p.1 p.2) chatInit

theorem add_keeps_bound (s : SessionMemory) (r c : PyStr) (m : Nat) (hm : 1 ≤ m)
    (hmax : s.max_history = m) (_hlen : s.history.length ≤ m) :
    (s.add r c).history.length ≤ m ∧ (s.add r c).max_history = m := by
  refine ⟨?_, ?_⟩
  · simp only [SessionMemory.add, hmax]
    split
    · rw [pyTailSlice_of_pos _ _ (by omega)]
      simp only [List.length_drop, List.length_append, List.length_cons, List.length_nil]
      omega
    · next hcond =>
      simp only [List.length_append, List.length_cons, List.length_nil] at hcond ⊢
      omega
  · simp only [SessionMemory.add, hmax]
    split <;> rfl

theorem chatStep_invariant (st : ChatState) (msg resp : PyStr)
    (hmax : st.session.max_history = 6) (hlen : st.session.history.length ≤ 6) :
    (chatStep st msg resp).session.max_history = 6 ∧
    (chatStep st msg resp).session.history.length ≤ 6 ∧
    (chatStep st msg resp).dispatched = st.dispatched := by
  obtain ⟨h1len, h1max⟩ := add_keeps_bound st.session (s2c "user") msg 6 (by omega) hmax hlen
  have hss : should_summarize (st.session.add (s2c "user") msg).history.length = false := by
    simp only [should_summarize, SUMMARIZE_EVERY, decide_eq_false_iff_not]
    omega
  simp only [chatStep, chatSummarizeBranch, hss, Bool.false_eq_true, if_false]
  obtain ⟨h2len, h2max⟩ := add_keeps_bound
    { st.session.add (s2c "user") msg with history := (st.session.add (s2c "user") msg).history }
    (s2c "assistant") resp 6 (by omega) h1max h1len
  refine ⟨h2max, h2len, ?_⟩
  simp

/-- C2: along every `/chat` conversation, the compression branch never fires:
the window is capped at `MAX_SHORT_TERM = 6` by `SessionMemory.add`, so
`should_summarize` (threshold 20) is always false and
`compress_session_to_episodic` is never dispatched. -/
theorem c2_compression_unreachable (reqs : List (PyStr × PyStr)) :
    (chatRun reqs).dispatched = false := by
  suffices h : ∀ (rs : List (PyStr × PyStr)) (st : ChatState),
      st.session.max_history = 6 → st.session.history.length ≤ 6 →
      (rs.foldl (fun st p => chatStep st p.1 p.2) st).session.max_history = 6 ∧
      (rs.foldl (fun st p => chatStep st p.1 p.2) st).session.history.length ≤ 6 ∧
      (rs.foldl (fun st p => chatStep st p.1 p.2) st).dispatched = st.dispatched by
    have := (h reqs chatInit rfl (by simp [chatInit, SessionMemory.new])).2.2
    simpa [chatRun] using this
  intro rs
  induction rs with
  | nil => intro st h1 h2; exact ⟨h1, h2, rfl⟩
  | cons p rest ih =>
    intro st h1 h2
    obtain ⟨s1, s2, s3⟩ := chatStep_invariant st p.1 p.2 h1 h2
    obtain ⟨t1, t2, t3⟩ := ih (chatStep st p.1 p.2) s1 s2
    exact ⟨t1, t2, by simp only [List.foldl_cons]; rw [t3, s3]⟩

/-- A concrete 20-turn window for the C1 counterexample / witness. -/
def demo20 : List Turn := (List.range 20).map (fun i => ⟨s2c "user", [i]⟩)

/-- C1 (counterexample): with a 20-turn window the threshold fires and a batch
is submitted; the store outcome is a failure (`compress_session_to_episodic`
returns false), yet the branch has already truncated the window to its last 10
turns — the window is **not** left unchanged on failure, contradicting the
claim. -/
theorem c1_counterexample :
    should_summarize demo20.length = true ∧
    (chatSummarizeBranch demo20 20).2 = some (demo20.take 10, 0) ∧
    compress_session_to_episodic (Except.ok (s2c "a fine summary")) false
      (s2c "u") (demo20.take 10) 0 = false ∧
    (chatSummarizeBranch demo20 20).1 = demo20.drop 10 ∧
    demo20.drop 10 ≠ demo20 := by
  decide

/-- C1 (amended): when the threshold triggers on the chat path (window length
≥ 20), the caller submits the batch `history[:-10]` to the background executor
and truncates the live window to its last 10 turns *immediately at dispatch
time*; the truncation does not depend on the outcome of the compression or the
store (which run later and whose result the branch never reads), so on failure
the compressed turns are dropped from the window rather than reconsidered. -/
theorem c1_truncates_at_dispatch (hist : List Turn) (ct : Nat)
    (h : 20 ≤ hist.length) :
    (chatSummarizeBranch hist ct).1 = List.drop (hist.length - 10) hist ∧
    (chatSummarizeBranch hist ct).2
      = some (hist.take (hist.length - 10), (ct : Int) - (hist.length : Int)) := by
  have hss : should_summarize hist.length = true := by
    simp only [should_summarize, SUMMARIZE_EVERY, decide_eq_true_eq]
    omega
  have hne : hist.take (hist.length - 10) ≠ [] := by
    intro hc
    rw [List.take_eq_nil_iff] at hc
    rcases hc with hc | hc
    · omega
    · rw [hc] at h
      simp at h
  simp only [chatSummarizeBranch]
  rw [if_pos hss, if_neg hne, pyTailSlice_of_pos hist 10 (by omega)]
  exact ⟨rfl, rfl⟩

/-- C1 (witness): the amended theorem applied at the concrete 20-turn window. -/
theorem c1_truncates_at_dispatch_witness :
    (chatSummarizeBranch demo20 20).1 = List.drop (demo20.length - 10) demo20 ∧
    (chatSummarizeBranch demo20 20).2
      = some (demo20.take (demo20.length - 10), (20 : Int) - (demo20.length : Int)) :=
  c1_truncates_at_dispatch demo20 20 (by decide)

/-- A row of the `structured_facts` table (src/init_db.py lines 20-33).
`updated_at` is an abstract timestamp (`NOW()` is supplied by callers as a
`Nat`); the serial `id` plays no role in the queries used and is omitted. -/
structure FactRow where
  user_id : PyStr
  category : PyStr
  key : PyStr
  value : PyStr
  confidence : ℚ
  importance : ℚ
  updated_at : Nat
  is_active : Bool
deriving DecidableEq

/-- Whether a row conflicts with a fresh insert for `(u, c, k, is_active=TRUE)`
under the partial unique index `idx_facts_unique` on
`(user_id, category, key, is_active) WHERE is_active = TRUE`
(src/init_db.py lines 36-40). -/
def FactRow.MatchesActive (r : FactRow) (u c k : PyStr) : Prop :=
  r.user_id = u ∧ r.category = c ∧ r.key = k ∧ r.is_active = true

instance (r : FactRow) (u c k : PyStr) : Decidable (r.MatchesActive u c k) := by
  unfold FactRow.MatchesActive
  infer_instance

/-- The row inserted by `upsert_fact`'s `INSERT ... VALUES (..., TRUE)`. -/
def newFactRow (now : Nat) (u c k v : PyStr) (conf imp : ℚ) : FactRow :=
  ⟨u, c, k, v, conf, imp, now, true⟩

/-- The conflict action `DO UPDATE SET value, confidence, importance,
updated_at = NOW() WHERE structured_facts.confidence <= EXCLUDED.confidence`
named in `upsert_fact`'s statement (src/memory/structured_facts.py lines
43-49): `some db'` when a row conflicting on `(user_id, category, key,
is_active=TRUE)` exists (updated in place iff the guard holds, untouched
otherwise), `none` when no row conflicts.  With the schema of src/init_db.py
this action is never reached: no arbiter index can be inferred for the
statement's conflict target (see `arbiterInferable` and `upsert_fact`). -/
def upsertRows (now : Nat) (u c k v : PyStr) (conf imp : ℚ) :
    List FactRow → Option (List FactRow)
  | [] => none
  | r :: rest =>
    if r.MatchesActive u c k then
      some (if r.confidence ≤ conf then
              { r with value := v, confidence := conf, importance := imp,
                       updated_at := now } :: rest
            else r :: rest)
    else (upsertRows now u c k v conf imp rest).map (fun db => r :: db)

/-- PostgreSQL arbiter-index inference for `INSERT ... ON CONFLICT (cols)
[WHERE index_predicate]`: a unique index qualifies when its columns match the
conflict-target columns and, if the index is partial, the conflict target
supplies an index predicate (implying the index's).  When no index qualifies,
the statement raises error 42P10 ("there is no unique or exclusion constraint
matching the ON CONFLICT specification") at execution. -/
def arbiterInferable (targetCols : List PyStr) (targetHasIndexPred : Bool)
    (idxCols : List PyStr) (idxPartial : Bool) : Bool :=
  decide (targetCols = idxCols) && (!idxPartial || targetHasIndexPred)

/-- The conflict target written in `upsert_fact`'s statement:
`ON CONFLICT (user_id, category, key, is_active)`
(src/memory/structured_facts.py line 41). -/
def upsertConflictCols : List PyStr :=
  [s2c "user_id", s2c "category", s2c "key", s2c "is_active"]

/-- Whether that conflict target carries a `WHERE index_predicate`: it does
not — the `WHERE` on line 48 belongs to the `DO UPDATE` arm, not to the
target. -/
def upsertTargetHasIndexPred : Bool := false

/-- Columns of `idx_facts_unique`, the only unique index on
`structured_facts` besides the serial primary key (src/init_db.py lines
35-39). -/
def idxFactsUniqueCols : List PyStr :=
  [s2c "user_id", s2c "category", s2c "key", s2c "is_active"]

/-- `idx_facts_unique` is partial: `WHERE is_active = TRUE`
(src/init_db.py line 38). -/
def idxFactsUniquePartial : Bool := true

/-- `upsert_fact` (src/memory/structured_facts.py lines 21-61): execute the
INSERT ... ON CONFLICT statement and commit, returning True; on any exception
roll back and return False with the table unchanged.  Because the conflict
target names no index predicate and the only candidate unique index is
partial, PostgreSQL cannot infer an arbiter and `cur.execute` raises 42P10 on
every call, so the function always takes its except branch.  The then-branch
below is the statement's would-be insert-or-conditional-update semantics,
unreachable under this schema. -/
def upsert_fact (db : List FactRow) (now : Nat) (u c k v : PyStr)
    (conf imp : ℚ) : List FactRow × Bool :=
  if arbiterInferable upsertConflictCols upsertTargetHasIndexPred
      idxFactsUniqueCols idxFactsUniquePartial then
    match upsertRows now u c k v conf imp db with
    | some db2 => (db2, true)
    | none => (db ++ [newFactRow now u c k v conf imp], true)
  else
    (db, false)

/-- The `ORDER BY importance DESC, updated_at DESC` comparator of
`get_all_facts`. -/
def factOrder (a b : FactRow) : Bool :=
  decide (b.importance < a.importance ∨
          (a.importance = b.importance ∧ b.updated_at ≤ a.updated_at))

/-- `get_all_facts` (src/memory/structured_facts.py lines 116-157): all active
rows of the user with `importance >= min_importance`, ordered by importance
then recency. -/
def get_all_facts (db : List FactRow) (u : PyStr) (min_importance : ℚ) :
    List FactRow :=
  (db.filter (fun r =>
    decide (r.user_id = u) && r.is_active && decide (min_importance ≤ r.importance))).mergeSort
    factOrder

/-- The active row a SELECT would see for `(u, c, k)`: the first conflicting
row (by the uniqueness invariant there is at most one). -/
def findActive (db : List FactRow) (u c k : PyStr) : Option FactRow :=
  db.find? (fun r => decide (r.MatchesActive u c k))

/-- An active `name` row used in the C3 witness and C4 counterexample: user
"u", category "identity", key "name", value "Alex", confidence 0.9. -/
def c3row : FactRow :=
  ⟨s2c "u", s2c "identity", s2c "name", s2c "Alex", mkRat 9 10, mkRat 8 10, 1, true⟩

theorem upsert_fact_always_fails (db : List FactRow) (now : Nat)
    (u c k v : PyStr) (conf imp : ℚ) :
    upsert_fact db now u c k v conf imp = (db, false) := by
  have hno : ¬ (arbiterInferable upsertConflictCols upsertTargetHasIndexPred
      idxFactsUniqueCols idxFactsUniquePartial = true) := by decide
  unfold upsert_fact
  rw [if_neg hno]

/-- C3: when `upsert` is called for a `(user_id, category, key)` that already
has an active row with strictly higher confidence, the write is discarded
silently — the table is unchanged and no exception reaches the caller — and
the operation returns success=false.  The mechanism differs from the
`DO UPDATE ... WHERE` guard the spec describes: the statement's conflict
target cannot infer the partial unique index, `cur.execute` raises 42P10, and
the except branch rolls back, logs, and returns False — on every call, in
particular under the claim's hypothesis. -/
theorem c3_discard_silent_returns_false (db : List FactRow) (now : Nat)
    (u c k v : PyStr) (conf imp : ℚ) (old : FactRow)
    (_hfind : findActive db u c k = some old) (_hconf : conf < old.confidence) :
    upsert_fact db now u c k v conf imp = (db, false) :=
  upsert_fact_always_fails db now u c k v conf imp

/-- C3 (witness): the theorem applied at a concrete one-row table whose
active row has confidence 0.9, with a 0.5-confidence upsert. -/
theorem c3_discard_silent_returns_false_witness :
    upsert_fact [c3row] 2 (s2c "u") (s2c "identity") (s2c "name") (s2c "Al")
      (mkRat 1 2) (mkRat 8 10) = ([c3row], false) :=
  c3_discard_silent_returns_false [c3row] 2 (s2c "u") (s2c "identity")
    (s2c "name") (s2c "Al") (mkRat 1 2) (mkRat 8 10) c3row (by decide) (by decide)

/-- C4 (counterexample): a superseding upsert (new confidence 0.95 ≥ old 0.9)
neither inserts a new row nor retires the old one: the statement fails (no
inferable arbiter for its conflict target), the function returns False, and
the table still holds exactly the one old row, active and unchanged — no
inactive history row exists. -/
theorem c4_counterexample :
    upsert_fact [c3row] 2 (s2c "u") (s2c "identity") (s2c "name")
      (s2c "Alexander") (mkRat 95 100) (mkRat 8 10) = ([c3row], false) ∧
    List.countP (fun r => !r.is_active)
      (upsert_fact [c3row] 2 (s2c "u") (s2c "identity") (s2c "name")
        (s2c "Alexander") (mkRat 95 100) (mkRat 8 10)).1 = 0 := by
  decide

/-- C4 (amended): `upsert_fact` performs no write at all — no insert, no
in-place update, no deactivation, and in particular no deletion of fact rows.
Its conflict target cannot infer the partial unique index `idx_facts_unique`
(the only matching unique index), so the statement raises 42P10 on every
execution; the except branch rolls back and returns False, leaving the table
exactly as it was. -/
theorem c4_statement_never_writes (db : List FactRow) (now : Nat)
    (u c k v : PyStr) (conf imp : ℚ) :
    arbiterInferable upsertConflictCols upsertTargetHasIndexPred
        idxFactsUniqueCols idxFactsUniquePartial = false ∧
    upsert_fact db now u c k v conf imp = (db, false) :=
  ⟨by decide, upsert_fact_always_fails db now u c k v conf imp⟩

/-- C5 (code bug): the spec's scenario is the evident intent — `upsert_fact`'s
docstring says "Insert or update a structured fact. Returns True if
successful", `idx_facts_unique` arbitrates exactly the conflict target's
columns, and src/test_extraction.py checks facts land in `structured_facts` —
but the conflict target omits the index predicate the partial index needs for
arbiter inference, so both upserts of the scenario fail (42P10, caught,
False), the table stays empty, and `get_all(u)` returns `[]` instead of one
active "Alexander" row. -/
theorem c5_scenario_divergence (u : PyStr) :
    upsert_fact [] 1 u (s2c "identity") (s2c "name") (s2c "Alex")
      (mkRat 9 10) (mkRat 8 10) = ([], false) ∧
    upsert_fact [] 2 u (s2c "identity") (s2c "name") (s2c "Alexander")
      (mkRat 95 100) (mkRat 8 10) = ([], false) ∧
    get_all_facts [] u 0 = [] := by
  refine ⟨upsert_fact_always_fails [] 1 u (s2c "identity") (s2c "name")
      (s2c "Alex") (mkRat 9 10) (mkRat 8 10),
    upsert_fact_always_fails [] 2 u (s2c "identity") (s2c "name")
      (s2c "Alexander") (mkRat 95 100) (mkRat 8 10), ?_⟩
  simp [get_all_facts, List.mergeSort_nil]

/-- One episode dict as consumed by `format_for_injection` (the fields it
reads: `turn_range` and `summary`). -/
structure EpRow where
  turn_range : PyStr
  summary : PyStr
deriving DecidableEq

/-- The dict returned by `retrieve_all` as consumed by `format_for_injection`
(src/memory/retrieval_harness.py): the ranked facts and episodes. -/
structure RetrievalResults where
  structured_facts : List FactRow
  episodic_context : List EpRow
deriving DecidableEq

/-- Python string slice `s[:k]`. -/
def pyTake (k : Nat) (s : PyStr) : PyStr := List.take k s

/-- The per-fact line `f"- {fact['key']}: {fact['value']}"`. -/
def factLine (f : FactRow) : PyStr :=
  s2c "- " ++ f.key ++ s2c ": " ++ f.value

/-- The per-episode line `f"- {ep['turn_range']}: {ep['summary'][:150]}..."`. -/
def epLine (e : EpRow) : PyStr :=
  s2c "- " ++ e.turn_range ++ s2c ": " ++ pyTake 150 e.summary ++ s2c "..."

/-- The per-section accumulation loop of `format_for_injection`
(src/memory/retrieval_harness.py lines 117-122 and 127-133): append each line
and add its length to `current_chars` while `current_chars + len(line)` stays
within the budget; the first line that would exceed it stops the section.
Returns the kept lines and the final `current_chars`. -/
def takeLines (char_budget : Nat) : Nat → List PyStr → List PyStr × Nat
  | current, [] => ([], current)
  | current, l :: rest =>
    if current + pyLen l > char_budget then ([], current)
    else
      let p := takeLines char_budget (current + pyLen l) rest
      (l :: p.1, p.2)

/-- The facts section: header `"## User Profile"` plus budgeted fact lines
(emitted only when there are facts). -/
def format_facts_part (r : RetrievalResults) (char_budget : Nat) :
    List PyStr × Nat :=
  if r.structured_facts = [] then ([], 0)
  else
    (s2c "## User Profile"
        :: (takeLines char_budget 0 (r.structured_facts.map factLine)).1,
     (takeLines char_budget 0 (r.structured_facts.map factLine)).2)

/-- The line-assembly of `format_for_injection` (src/memory/retrieval_harness.py
lines 100-136): facts section, then — if episodes exist and
`current_chars < char_budget` — the `"\n## Recent Context"` header plus
budgeted episode lines.  Returns the lines and the final `current_chars`. -/
def format_lines (r : RetrievalResults) (max_tokens : Nat) : List PyStr × Nat :=
  let char_budget := max_tokens * 4
  let fpart := format_facts_part r char_budget
  if r.episodic_context ≠ [] ∧ fpart.2 < char_budget then
    (fpart.1 ++ s2c "\n## Recent Context"
        :: (takeLines char_budget fpart.2 (r.episodic_context.map epLine)).1,
     (takeLines char_budget fpart.2 (r.episodic_context.map epLine)).2)
  else fpart

/-- `format_for_injection` (src/memory/retrieval_harness.py line 137): join the
assembled lines with newlines, or return the sentinel when nothing qualified. -/
def format_for_injection (r : RetrievalResults) (max_tokens : Nat) : PyStr :=
  if (format_lines r max_tokens).1 = [] then s2c "No relevant memory found."
  else pyJoin (s2c "\n") (format_lines r max_tokens).1

/-- A one-fact input for the C6 counterexample. -/
def c6input : RetrievalResults :=
  ⟨[⟨s2c "u", s2c "preference", s2c "k", s2c "v", 1, 1, 0, true⟩], []⟩

/-- C6 (counterexample): with one fact and `max_tokens = 1` (character budget
4), the fact line `"- k: v"` is dropped by the budget check, but the section
header `"## User Profile"` was already appended without being counted: the
output has 15 characters, exceeding `max_tokens*4 = 4`. -/
theorem c6_counterexample :
    format_for_injection c6input 1 = s2c "## User Profile" ∧
    pyLen (format_for_injection c6input 1) = 15 ∧
    ¬ pyLen (format_for_injection c6input 1) ≤ 1 * 4 := by
  decide

theorem takeLines_le (char_budget : Nat) (cur : Nat) (ls : List PyStr)
    (h : cur ≤ char_budget) : (takeLines char_budget cur ls).2 ≤ char_budget := by
  induction ls generalizing cur with
  | nil => exact h
  | cons l rest ih =>
    simp only [takeLines]
    split
    · exact h
    · next hle => exact ih (cur + pyLen l) (by omega)

theorem format_facts_part_le (r : RetrievalResults) (char_budget : Nat) :
    (format_facts_part r char_budget).2 ≤ char_budget := by
  unfold format_facts_part
  split
  · simp
  · exact takeLines_le char_budget 0 (r.structured_facts.map factLine) (by omega)

/-- C6 (amended): the characters `format_for_injection` counts against the
budget — the fact and episode lines it actually emits — total at most
`max_tokens * 4`; the section headers and the joining newlines are *not*
counted, so the returned string itself can exceed `max_tokens * 4` (by the
15-character `"## User Profile"` header alone in the counterexample). -/
theorem c6_counted_chars_le_budget (r : RetrievalResults) (max_tokens : Nat) :
    (format_lines r max_tokens).2 ≤ max_tokens * 4 := by
  simp only [format_lines]
  split
  · exact takeLines_le (max_tokens * 4) (format_facts_part r (max_tokens * 4)).2
      (r.episodic_context.map epLine) (format_facts_part_le r (max_tokens * 4))
  · exact format_facts_part_le r (max_tokens * 4)

/-- `CANONICAL_KEY_MAPPING` (src/config.py lines 32-47). -/
def CANONICAL_KEY_MAPPING : List (PyStr × List PyStr) :=
  [ (s2c "name",
     [s2c "name", s2c "full_name", s2c "username", s2c "first_name", s2c "my_name"]),
    (s2c "language",
     [s2c "language", s2c "programming_language", s2c "preferred_language",
      s2c "lang", s2c "code_language"]),
    (s2c "formatter",
     [s2c "formatter", s2c "code_formatter", s2c "formatting_tool", s2c "format_tool"]),
    (s2c "location",
     [s2c "location", s2c "city", s2c "place", s2c "where", s2c "based_in"]),
    (s2c "timezone", [s2c "timezone", s2c "tz", s2c "time_zone"]),
    (s2c "project",
     [s2c "project", s2c "working_on", s2c "current_project", s2c "hackathon_project"]),
    (s2c "job", [s2c "job", s2c "occupation", s2c "role", s2c "work", s2c "profession"]),
    (s2c "testing_framework",
     [s2c "testing_framework", s2c "test_framework", s2c "testing_tool"]),
    (s2c "api_framework", [s2c "api_framework", s2c "api_tool", s2c "web_framework"]),
    (s2c "type_hints", [s2c "type_hints", s2c "use_type_hints", s2c "type_annotations"]),
    (s2c "docstrings", [s2c "docstrings", s2c "documentation_style", s2c "doc_style"]),
    (s2c "line_length", [s2c "line_length", s2c "max_line_length", s2c "code_width"]),
    (s2c "database", [s2c "database", s2c "db", s2c "database_system"]),
    (s2c "latency_target",
     [s2c "latency_target", s2c "target_latency", s2c "latency_goal"]) ]

/-- `_normalize_key` (src/memory/extractor.py lines 86-102): trim and
lower-case; return it if it is a canonical key; otherwise return the first
canonical key whose (lower-cased) alias list contains it; otherwise return it
unchanged. -/
def normalize_key (raw_key : PyStr) : PyStr :=
  let raw_key_lower := pyLower (pyStrip raw_key)
  if raw_key_lower ∈ CANONICAL_KEY_MAPPING.map Prod.fst then raw_key_lower
  else
    match CANONICAL_KEY_MAPPING.find?
        (fun p => decide (raw_key_lower ∈ p.2.map pyLower)) with
    | some p => p.1
    | none => raw_key_lower

theorem lowerCode_idem (n : Nat) : lowerCode (lowerCode n) = lowerCode n := by
  unfold lowerCode
  split
  · next h => rw [if_neg (by omega)]
  · rfl

theorem isSpaceCode_lowerCode (n : Nat) :
    isSpaceCode (lowerCode n) = isSpaceCode n := by
  unfold lowerCode
  split
  · next h =>
    have h1 : isSpaceCode (n + 32) = false := by
      simp only [isSpaceCode, Bool.or_eq_false_iff, decide_eq_false_iff_not]
      omega
    have h2 : isSpaceCode n = false := by
      simp only [isSpaceCode, Bool.or_eq_false_iff, decide_eq_false_iff_not]
      omega
    rw [h1, h2]
  · rfl

theorem pyLower_idem (s : PyStr) : pyLower (pyLower s) = pyLower s := by
  simp only [pyLower, List.map_map]
  apply List.map_congr_left
  intro a _
  exact lowerCode_idem a

theorem dropWhile_lowerCode (s : List Nat) :
    List.dropWhile isSpaceCode (List.map lowerCode s)
      = List.map lowerCode (List.dropWhile isSpaceCode s) := by
  induction s with
  | nil => rfl
  | cons a l ih =>
    simp only [List.map_cons, List.dropWhile_cons, isSpaceCode_lowerCode]
    split
    · exact ih
    · rfl

theorem pyLstrip_pyLower (s : PyStr) :
    pyLstrip (pyLower s) = pyLower (pyLstrip s) :=
  dropWhile_lowerCode s

theorem pyRstrip_pyLower (s : PyStr) :
    pyRstrip (pyLower s) = pyLower (pyRstrip s) := by
  simp only [pyRstrip, pyLower, ← List.map_reverse, dropWhile_lowerCode]

theorem pyStrip_pyLower (s : PyStr) :
    pyStrip (pyLower s) = pyLower (pyStrip s) := by
  simp only [pyStrip, pyLstrip_pyLower, pyRstrip_pyLower]

theorem dropWhile_head_false {p : Nat → Bool} :
    ∀ (l : List Nat) (a : Nat) (v : List Nat),
      List.dropWhile p l = a :: v → p a = false := by
  intro l
  induction l with
  | nil => intro a v h; simp [List.dropWhile] at h
  | cons x xs ih =>
    intro a v h
    rw [List.dropWhile_cons] at h
    split at h
    · exact ih a v h
    · next hx =>
      obtain ⟨ha, _⟩ := List.cons.inj h
      rw [← ha]
      simpa using hx

theorem dropWhile_idem (p : Nat → Bool) (l : List Nat) :
    List.dropWhile p (List.dropWhile p l) = List.dropWhile p l := by
  cases h : List.dropWhile p l with
  | nil => rfl
  | cons a v =>
    rw [List.dropWhile_cons, dropWhile_head_false l a v h]
    simp

theorem dropWhile_append_singleton {p : Nat → Bool} (a : Nat) (ha : p a = false) :
    ∀ (xs : List Nat),
      List.dropWhile p (xs ++ [a]) = List.dropWhile p xs ++ [a] := by
  intro xs
  induction xs with
  | nil => simp [List.dropWhile_cons, ha]
  | cons x l ih =>
    simp only [List.cons_append, List.dropWhile_cons]
    split
    · exact ih
    · rfl

theorem pyLstrip_idem (s : PyStr) : pyLstrip (pyLstrip s) = pyLstrip s :=
  dropWhile_idem isSpaceCode s

theorem pyRstrip_idem (s : PyStr) : pyRstrip (pyRstrip s) = pyRstrip s := by
  simp only [pyRstrip, List.reverse_reverse]
  rw [dropWhile_idem]

theorem pyLstrip_pyRstrip_of_lstripped (s : PyStr) (hs : pyLstrip s = s) :
    pyLstrip (pyRstrip s) = pyRstrip s := by
  cases h : (s : List Nat) with
  | nil => rfl
  | cons a v =>
    rw [h] at hs
    have hs' : List.dropWhile isSpaceCode (a :: v) = a :: v := hs
    have ha : isSpaceCode a = false := dropWhile_head_false (a :: v) a v hs'
    show List.dropWhile isSpaceCode
        (List.reverse (List.dropWhile isSpaceCode (List.reverse (a :: v))))
      = List.reverse (List.dropWhile isSpaceCode (List.reverse (a :: v)))
    rw [List.reverse_cons, dropWhile_append_singleton a ha, List.reverse_append]
    simp only [List.reverse_cons, List.reverse_nil, List.nil_append,
      List.singleton_append, List.dropWhile_cons, ha]
    simp

theorem pyStrip_idem (s : PyStr) : pyStrip (pyStrip s) = pyStrip s := by
  unfold pyStrip
  rw [pyLstrip_pyRstrip_of_lstripped (pyLstrip s) (pyLstrip_idem s), pyRstrip_idem]

/-- The composite trim-then-lower normal form used by `_normalize_key`. -/
def canonForm (k : PyStr) : PyStr := pyLower (pyStrip k)

theorem canonForm_canonForm (k : PyStr) : canonForm (canonForm k) = canonForm k := by
  unfold canonForm
  rw [pyStrip_pyLower, pyStrip_idem, pyLower_idem]

theorem normalize_key_congr (k1 k2 : PyStr)
    (h : pyLower (pyStrip k1) = pyLower (pyStrip k2)) :
    normalize_key k1 = normalize_key k2 := by
  unfold normalize_key
  rw [h]

theorem normalize_key_fix_mapping :
    ∀ p ∈ CANONICAL_KEY_MAPPING, normalize_key p.1 = p.1 := by
  decide

theorem normalize_key_unknown (k : PyStr)
    (h1 : pyLower (pyStrip k) ∉ CANONICAL_KEY_MAPPING.map Prod.fst)
    (h2 : ∀ p ∈ CANONICAL_KEY_MAPPING, pyLower (pyStrip k) ∉ List.map pyLower p.2) :
    normalize_key k = pyLower (pyStrip k) := by
  have hfind : CANONICAL_KEY_MAPPING.find?
      (fun p => decide (pyLower (pyStrip k) ∈ List.map pyLower p.2)) = none := by
    rw [List.find?_eq_none]
    intro p hp
    simpa using h2 p hp
  unfold normalize_key
  rw [if_neg h1, hfind]

theorem normalize_key_idem (k : PyStr) :
    normalize_key (normalize_key k) = normalize_key k := by
  have hcc : pyLower (pyStrip (pyLower (pyStrip k))) = pyLower (pyStrip k) :=
    canonForm_canonForm k
  by_cases hmem : pyLower (pyStrip k) ∈ CANONICAL_KEY_MAPPING.map Prod.fst
  · have hout : normalize_key k = pyLower (pyStrip k) := by
      unfold normalize_key
      rw [if_pos hmem]
    obtain ⟨p, hp, hfst⟩ := List.mem_map.mp hmem
    rw [hout, ← hfst]
    exact normalize_key_fix_mapping p hp
  · cases hfind : CANONICAL_KEY_MAPPING.find?
        (fun p => decide (pyLower (pyStrip k) ∈ List.map pyLower p.2)) with
    | some p =>
      have hout : normalize_key k = p.1 := by
        unfold normalize_key
        rw [if_neg hmem, hfind]
      rw [hout]
      exact normalize_key_fix_mapping p (List.mem_of_find?_eq_some hfind)
    | none =>
      have hout : normalize_key k = pyLower (pyStrip k) := by
        unfold normalize_key
        rw [if_neg hmem, hfind]
      rw [hout]
      unfold normalize_key
      rw [hcc, if_neg hmem, hfind]

/-- C9: `_normalize_key` is idempotent; keys with equal trimmed-lower-cased
forms canonicalize identically (case/whitespace-insensitivity); both
`" Full_Name "` and `"full_name"` map to `"name"`; and a raw key matching no
canonical key or alias passes through trimmed and lower-cased. -/
theorem c9_canonicalize (k k1 k2 : PyStr) :
    normalize_key (normalize_key k) = normalize_key k ∧
    (pyLower (pyStrip k1) = pyLower (pyStrip k2) →
      normalize_key k1 = normalize_key k2) ∧
    normalize_key (s2c " Full_Name ") = s2c "name" ∧
    normalize_key (s2c "full_name") = s2c "name" ∧
    (pyLower (pyStrip k) ∉ CANONICAL_KEY_MAPPING.map Prod.fst →
     (∀ p ∈ CANONICAL_KEY_MAPPING, pyLower (pyStrip k) ∉ List.map pyLower p.2) →
     normalize_key k = pyLower (pyStrip k)) :=
  ⟨normalize_key_idem k, normalize_key_congr k1 k2, by decide, by decide,
   normalize_key_unknown k⟩

/-- C9 (witness): the theorem applied at concrete keys — " PronounS " and
"pronouns" differ only in case and surrounding whitespace and canonicalize to
the same (unknown, passed-through) key. -/
theorem c9_canonicalize_witness :
    normalize_key (s2c " PronounS ") = normalize_key (s2c "pronouns") :=
  (c9_canonicalize (s2c "q") (s2c " PronounS ") (s2c "pronouns")).2.1 (by decide)

/-- A Python value as produced by `json.loads` on the extractor's cleaned
response: JSON strings, integers, floats, booleans, null, arrays, objects
(object keys are strings). -/
inductive PyVal where
  | vstr : PyStr → PyVal
  | vint : Int → PyVal
  | vfloat : ℚ → PyVal
  | vbool : Bool → PyVal
  | vnone : PyVal
  | vlist : List PyVal → PyVal
  | vdict : List (PyStr × PyVal) → PyVal

/-- Python `dict.get(k)`: the value of the first matching key, if any. -/
def pyGet (d : List (PyStr × PyVal)) (k : PyStr) : Option PyVal :=
  (d.find? (fun p => decide (p.1 = k))).map Prod.snd

/-- Python truthiness (`bool(v)`) for the modelled values. -/
def pyTruthy : PyVal → Bool
  | .vstr s => decide (s ≠ ({} : PyStr))
  | .vint n => decide (n ≠ 0)
  | .vfloat q => decide (q ≠ 0)
  | .vbool b => b
  | .vnone => false
  | .vlist l => !l.isEmpty
  | .vdict d => !d.isEmpty

/-- Decimal digits of a natural number, as codepoints. -/
def natDecimal (n : Nat) : PyStr := (Nat.toDigits 10 n).map Char.toNat

/-- Python `str(int)`. -/
def intDecimal (n : Int) : PyStr :=
  if n < 0 then s2c "-" ++ natDecimal n.natAbs else natDecimal n.natAbs

/-- Fractional decimal digits of `q ∈ [0,1)`, with fuel (Python float repr is
finite; 17 digits suffice for the modelled fragment). -/
def fracDecimal : Nat → ℚ → PyStr
  | 0, _ => {}
  | fuel + 1, q =>
    if q = 0 then {}
    else
      let q10 := q * 10
      let d := ⌊q10⌋.toNat
      (48 + d) :: fracDecimal fuel (q10 - ⌊q10⌋)

/-- Python `str(float)` on the finite-decimal fragment: sign, integer part,
dot, fractional digits (`"x.0"` when the fraction is empty). -/
def floatDecimal (q : ℚ) : PyStr :=
  let sgn : PyStr := if q < 0 then s2c "-" else {}
  let a := |q|
  let ip := ⌊a⌋.toNat
  let fr := fracDecimal 17 (a - ⌊a⌋)
  sgn ++ natDecimal ip ++ s2c "." ++ (if fr = ({} : PyStr) then s2c "0" else fr)

mutual

/-- Python `repr` of the modelled values (string escaping is not modelled:
the repr of a string is the string between single quotes), mutually recursive
with the repr of list elements and dict items. -/
def pyReprVal : PyVal → PyStr
  | .vstr s => s2c "'" ++ s ++ s2c "'"
  | .vint n => intDecimal n
  | .vfloat q => floatDecimal q
  | .vbool b => if b then s2c "True" else s2c "False"
  | .vnone => s2c "None"
  | .vlist l => s2c "[" ++ pyReprList l ++ s2c "]"
  | .vdict d => s2c "\x7b" ++ pyReprDict d ++ s2c "\x7d"

def pyReprList : List PyVal → PyStr
  | [] => {}
  | [x] => pyReprVal x
  | x :: y :: rest => pyReprVal x ++ s2c ", " ++ pyReprList (y :: rest)

def pyReprDict : List (PyStr × PyVal) → PyStr
  | [] => {}
  | [p] => s2c "'" ++ p.1 ++ s2c "': " ++ pyReprVal p.2
  | p :: q :: rest =>
      s2c "'" ++ p.1 ++ s2c "': " ++ pyReprVal p.2 ++ s2c ", " ++ pyReprDict (q :: rest)

end

/-- Python `str(v)`. -/
def pyStrVal : PyVal → PyStr
  | .vstr s => s
  | v => pyReprVal v

/-- Is the codepoint a decimal digit. -/
def isDigitCode (n : Nat) : Bool := 48 ≤ n && n ≤ 57

/-- Numeric value of a digit string (caller guarantees digits). -/
def digitsVal (l : List Nat) : Nat := l.foldl (fun acc c => acc * 10 + (c - 48)) 0

/-- Parse `[sign] digits` (at least one digit), for the exponent part. -/
def parseSignedNat (s : List Nat) : Option Int :=
  match s with
  | 45 :: rest =>
      if rest ≠ [] ∧ rest.all isDigitCode then some (-(digitsVal rest : Int)) else none
  | 43 :: rest =>
      if rest ≠ [] ∧ rest.all isDigitCode then some (digitsVal rest : Int) else none
  | _ => if s ≠ [] ∧ s.all isDigitCode then some (digitsVal s : Int) else none

/-- Parse the mantissa `digits [. digits]` (at least one digit overall). -/
def parseMantissa (s : List Nat) : Option ℚ :=
  match s.findIdx? (fun c => c = 46) with
  | none => if s ≠ [] ∧ s.all isDigitCode then some (digitsVal s : ℚ) else none
  | some j =>
      let ip := s.take j
      let fp := s.drop (j + 1)
      if (ip ≠ [] ∨ fp ≠ []) ∧ ip.all isDigitCode ∧ fp.all isDigitCode then
        some ((digitsVal ip : ℚ) + (digitsVal fp : ℚ) / (10 : ℚ) ^ fp.length)
      else none

/-- Python `float(string)` on the decimal fragment
`[ws] [sign] digits [. digits] [e [sign] digits] [ws]` (no inf/nan/underscores:
those raise/parse in Python but never occur in the extractor's data). -/
def parsePyFloat (s : PyStr) : Option ℚ :=
  let t := pyStrip s
  let (sgn, body) : ℚ × List Nat :=
    match (t : List Nat) with
    | 45 :: rest => (-1, rest)
    | 43 :: rest => (1, rest)
    | other => (1, other)
  let (mant, expPart) : List Nat × Option (List Nat) :=
    match body.findIdx? (fun c => c = 101 || c = 69) with
    | none => (body, none)
    | some i => (body.take i, some (body.drop (i + 1)))
  match parseMantissa mant with
  | none => none
  | some m =>
      match expPart with
      | none => some (sgn * m)
      | some e =>
          match parseSignedNat e with
          | none => none
          | some z => some (sgn * m * (10 : ℚ) ^ z)

/-- Python `float(v)`: numbers and booleans convert, strings parse,
everything else raises `TypeError` (modelled as `none`). -/
def pyFloat : PyVal → Option ℚ
  | .vint n => some (n : ℚ)
  | .vfloat q => some q
  | .vbool b => some (if b then 1 else 0)
  | .vstr s => parsePyFloat s
  | _ => none

/-- `MIN_CONFIDENCE` (src/memory/extractor.py line 45): 0.4. -/
def MIN_CONFIDENCE : ℚ := mkRat 4 10

/-- `MIN_IMPORTANCE` (src/memory/extractor.py line 46): 0.2. -/
def MIN_IMPORTANCE : ℚ := mkRat 2 10

/-- A validated extraction candidate (the dict `_validate_and_normalize`
returns). -/
structure NormFact where
  category : PyStr
  key : PyStr
  value : PyStr
  confidence : ℚ
  importance : ℚ
deriving DecidableEq

/-- `float(mem.get("confidence", 1.0))` with the `except (TypeError,
ValueError): confidence = 1.0` fallback (src/memory/extractor.py lines
133-136): 1.0 when the field is absent or unparsable. -/
def effConfidence (d : List (PyStr × PyVal)) : ℚ :=
  match pyGet d (s2c "confidence") with
  | none => 1
  | some v => (pyFloat v).getD 1

/-- `float(mem.get("importance", 0.5))` with the same fallback (lines
138-141): 0.5 when absent or unparsable. -/
def effImportance (d : List (PyStr × PyVal)) : ℚ :=
  match pyGet d (s2c "importance") with
  | none => mkRat 5 10
  | some v => (pyFloat v).getD (mkRat 5 10)

/-- `not x` on an optional field value (`dict.get` returns `None` when
absent, which is falsy). -/
def pyFalsyOpt : Option PyVal → Bool
  | none => true
  | some v => !pyTruthy v

/-- `x is None` on an optional field value. -/
def isNoneOpt : Option PyVal → Bool
  | none => true
  | some .vnone => true
  | some _ => false

/-- `_validate_and_normalize` (src/memory/extractor.py lines 105-161):
reject non-dicts; reject when `category`/`key` are falsy or `value is None`;
stringify and trim the three fields (lower-casing `category`); reject empty
`key`/`value`; canonicalize `key`; reject disallowed categories; read
`confidence`/`importance` with defaults; reject below the quality floors. -/
def _validate_and_normalize : PyVal → Option NormFact
  | .vdict d =>
    if pyFalsyOpt (pyGet d (s2c "category")) || pyFalsyOpt (pyGet d (s2c "key"))
        || isNoneOpt (pyGet d (s2c "value")) then none
    else
      let category := pyLower (pyStrip (pyStrVal ((pyGet d (s2c "category")).getD .vnone)))
      let key0 := pyStrip (pyStrVal ((pyGet d (s2c "key")).getD .vnone))
      let value := pyStrip (pyStrVal ((pyGet d (s2c "value")).getD .vnone))
      if key0 = ({} : PyStr) ∨ value = ({} : PyStr) then none
      else
        let key := normalize_key key0
        if category ∉ [s2c "identity", s2c "preference", s2c "constraint",
            s2c "instruction"] then none
        else
          let confidence := effConfidence d
          let importance := effImportance d
          if confidence < MIN_CONFIDENCE then none
          else if importance < MIN_IMPORTANCE then none
          else some ⟨category, key, value, confidence, importance⟩
  | _ => none

theorem validate_reject_low_confidence (d : List (PyStr × PyVal))
    (h : effConfidence d < MIN_CONFIDENCE) :
    _validate_and_normalize (.vdict d) = none := by
  unfold _validate_and_normalize
  dsimp only
  split_ifs
  any_goals rfl

theorem validate_reject_low_importance (d : List (PyStr × PyVal))
    (h : effImportance d < MIN_IMPORTANCE) :
    _validate_and_normalize (.vdict d) = none := by
  unfold _validate_and_normalize
  dsimp only
  split_ifs
  any_goals rfl

theorem validate_some_bounds (m : PyVal) (nf : NormFact)
    (h : _validate_and_normalize m = some nf) :
    MIN_CONFIDENCE ≤ nf.confidence ∧ MIN_IMPORTANCE ≤ nf.importance := by
  cases m with
  | vdict d =>
    unfold _validate_and_normalize at h
    dsimp only at h
    split_ifs at h with h1 h2 h3 h4 h5
    have hnf := Option.some_injective _ h
    rw [← hnf]
    exact ⟨not_lt.mp h4, not_lt.mp h5⟩
  | vstr s => exact absurd h (by simp [_validate_and_normalize])
  | vint n => exact absurd h (by simp [_validate_and_normalize])
  | vfloat q => exact absurd h (by simp [_validate_and_normalize])
  | vbool b => exact absurd h (by simp [_validate_and_normalize])
  | vnone => exact absurd h (by simp [_validate_and_normalize])
  | vlist l => exact absurd h (by simp [_validate_and_normalize])

/-- One upsert call dispatched by the extraction loop (the arguments passed to
`upsert_fact` in src/memory/extractor.py lines 228-236). -/
structure UpsertCall where
  user_id : PyStr
  category : PyStr
  key : PyStr
  value : PyStr
  confidence : ℚ
  importance : ℚ
deriving DecidableEq

/-- The `except Exception` handler around each per-candidate `upsert_fact`
call: any outcome is swallowed and the loop continues. -/
def pyTryCatchAll (m : Except Unit Unit) : Except Unit Unit :=
  match m with
  | Except.error _ => Except.ok ()
  | Except.ok x => Except.ok x

/-- The candidate loop of `extract_and_store` (src/memory/extractor.py lines
214-241): validate each candidate, skip invalid ones and duplicates by
`(category, key, value)`, and call `upsert_fact` for the survivors; each call
is try/except-guarded (`raises i` is the oracle for whether the `i`-th call
raises), so a persistence failure never stops the loop.  Returns the upsert
calls made. -/
def runCandidates (raises : Nat → Bool) (user_id : PyStr) :
    List PyVal → List (PyStr × PyStr × PyStr) → Nat → List UpsertCall
  | [], _, _ => []
  | raw :: rest, seen, i =>
    match _validate_and_normalize raw with
    | none => runCandidates raises user_id rest seen i
    | some norm =>
      if (norm.category, norm.key, norm.value) ∈ seen then
        runCandidates raises user_id rest seen i
      else
        let _att := pyTryCatchAll
          (if raises i then Except.error () else Except.ok ())
        ⟨user_id, norm.category, norm.key, norm.value,
          norm.confidence, norm.importance⟩
          :: runCandidates raises user_id rest
              ((norm.category, norm.key, norm.value) :: seen) (i + 1)

theorem runCandidates_bounds (raises : Nat → Bool) (u : PyStr) :
    ∀ (cs : List PyVal) (seen : List (PyStr × PyStr × PyStr)) (i : Nat),
      ∀ call ∈ runCandidates raises u cs seen i,
        MIN_CONFIDENCE ≤ call.confidence ∧ MIN_IMPORTANCE ≤ call.importance := by
  intro cs
  induction cs with
  | nil => intro seen i call hc; simp [runCandidates] at hc
  | cons raw rest ih =>
    intro seen i call hc
    cases hv : _validate_and_normalize raw with
    | none =>
      simp only [runCandidates, hv] at hc
      exact ih seen i call hc
    | some norm =>
      simp only [runCandidates, hv] at hc
      split at hc
      · exact ih seen i call hc
      · simp only [List.mem_cons] at hc
        rcases hc with hc | hc
        · obtain ⟨hco, him⟩ := validate_some_bounds raw norm hv
          rw [hc]
          exact ⟨hco, him⟩
        · exact ih _ _ call hc

/-- C8: in extraction validation, `confidence` defaults to 1.0 and
`importance` to 0.5 when the field is absent or unparsable; a candidate with
`confidence < 0.4` or `importance < 0.2` is rejected by
`_validate_and_normalize`; and every upsert call issued by the extraction loop
satisfies both floors — so such candidates are never passed to upsert. -/
theorem c8_thresholds (d : List (PyStr × PyVal)) (raises : Nat → Bool)
    (u : PyStr) (cands : List PyVal) :
    (pyGet d (s2c "confidence") = none → effConfidence d = 1) ∧
    (∀ v, pyGet d (s2c "confidence") = some v → pyFloat v = none →
      effConfidence d = 1) ∧
    (pyGet d (s2c "importance") = none → effImportance d = mkRat 5 10) ∧
    (∀ v, pyGet d (s2c "importance") = some v → pyFloat v = none →
      effImportance d = mkRat 5 10) ∧
    (effConfidence d < MIN_CONFIDENCE →
      _validate_and_normalize (.vdict d) = none) ∧
    (effImportance d < MIN_IMPORTANCE →
      _validate_and_normalize (.vdict d) = none) ∧
    (∀ call ∈ runCandidates raises u cands [] 0,
      MIN_CONFIDENCE ≤ call.confidence ∧ MIN_IMPORTANCE ≤ call.importance) := by
  refine ⟨?_, ?_, ?_, ?_, validate_reject_low_confidence d,
    validate_reject_low_importance d, runCandidates_bounds raises u cands [] 0⟩
  · intro h
    simp [effConfidence, h]
  · intro v hv hf
    simp [effConfidence, hv, hf]
  · intro h
    simp [effImportance, h]
  · intro v hv hf
    simp [effImportance, hv, hf]

/-- The concrete low-confidence candidate of the C8 witness. -/
def c8cand : List (PyStr × PyVal) :=
  [(s2c "category", PyVal.vstr (s2c "identity")),
   (s2c "key", PyVal.vstr (s2c "name")),
   (s2c "value", PyVal.vstr (s2c "Alex")),
   (s2c "confidence", PyVal.vfloat (mkRat 3 10))]

/-- C8 (witness): a candidate with confidence 0.3 (< 0.4) is rejected. -/
theorem c8_thresholds_witness : _validate_and_normalize (.vdict c8cand) = none :=
  (c8_thresholds c8cand (fun _ => false) (s2c "u") []).2.2.2.2.1 (by decide)

/-- Python `str.startswith` on codepoint lists. -/
def startsWithCodes : List Nat → List Nat → Bool
  | [], _ => true
  | _ :: _, [] => false
  | p :: ps, c :: cs => decide (p = c) && startsWithCodes ps cs

/-- Python `str.endswith` on codepoint lists. -/
def endsWithCodes (pat s : List Nat) : Bool :=
  startsWithCodes pat.reverse s.reverse

/-- `_clean_response` (src/memory/extractor.py lines 49-81): strip; peel a
Markdown fence (drop through the first newline when one follows the opening
fence, drop a trailing fence, re-strip); drop a leading `"json"` label; keep
from the first `[`/`{`; cut after the last `]`/`}`. -/
def _clean_response (response : Option PyStr) : PyStr :=
  match response with
  | none => {}
  | some r =>
    let cleaned := pyStrip r
    let cleaned :=
      if startsWithCodes (s2c "```") cleaned then
        let c1 := match (cleaned : List Nat).findIdx? (fun c => decide (c = 10)) with
          | some i => if 0 < i then (cleaned : List Nat).drop (i + 1) else cleaned
          | none => cleaned
        let c2 := if endsWithCodes (s2c "```") c1 then
            (c1 : List Nat).take ((c1 : List Nat).length - 3)
          else c1
        pyStrip c2
      else cleaned
    let cleaned :=
      if startsWithCodes (s2c "json") (pyLower cleaned) then
        pyStrip ((cleaned : List Nat).drop 4)
      else cleaned
    let cleaned :=
      match (cleaned : List Nat).findIdx? (fun c => c = 91 || c = 123) with
      | some i => (cleaned : List Nat).drop i
      | none => cleaned
    match (cleaned : List Nat).reverse.findIdx? (fun c => c = 93 || c = 125) with
    | some j => (cleaned : List Nat).take ((cleaned : List Nat).length - j)
    | none => cleaned

/-- Python `message.split()`: maximal non-whitespace runs. -/
def splitWS (s : PyStr) : List PyStr :=
  ((s : List Nat).foldr (fun c acc =>
    if isSpaceCode c then ([] : List Nat) :: acc
    else match acc with
      | [] => [[c]]
      | w :: ws => (c :: w) :: ws) []).filter (fun w => decide (w ≠ []))

/-- Oracle outcomes for the fallible externals of `extract_and_store`:
the LLM HTTP call (the whole guarded `requests.post` block), `json.loads`
(`none` models a `JSONDecodeError`), and whether each `upsert_fact` call
raises. -/
structure ExtractEnv where
  llm : Except Unit PyStr
  jsonParse : PyStr → Option PyVal
  upsertRaises : Nat → Bool

/-- `extract_and_store` (src/memory/extractor.py lines 164-241): skip
questions and very short messages; call the LLM (exceptions caught → return);
clean and JSON-parse the response (parse errors caught → return; empty cleaned
text short-circuits to `[]`); abort on a non-list; validate, dedupe, and
upsert the candidates with per-candidate exception guards.  The result is the
list of upsert calls made; an `Except.error` result would model an uncaught
exception reaching the caller. -/
def extract_and_store (env : ExtractEnv) (user_id message : PyStr) :
    Except Unit (List UpsertCall) :=
  if endsWithCodes (s2c "?") (pyStrip message) then Except.ok []
  else if (splitWS message).length < 3 then Except.ok []
  else
    match env.llm with
    | Except.error _ => Except.ok []
    | Except.ok response =>
      let cleaned := _clean_response (some response)
      let parsed : Except Unit PyVal :=
        if cleaned = ({} : PyStr) then Except.ok (PyVal.vlist [])
        else match env.jsonParse cleaned with
          | none => Except.error ()
          | some v => Except.ok v
      match parsed with
      | Except.error _ => Except.ok []
      | Except.ok (PyVal.vlist cs) =>
          Except.ok (runCandidates env.upsertRaises user_id cs [] 0)
      | Except.ok _ => Except.ok []

theorem runCandidates_raises_indep (f g : Nat → Bool) (u : PyStr) :
    ∀ (cs : List PyVal) (seen : List (PyStr × PyStr × PyStr)) (i : Nat),
      runCandidates f u cs seen i = runCandidates g u cs seen i := by
  intro cs
  induction cs with
  | nil => intro seen i; rfl
  | cons raw rest ih =>
    intro seen i
    cases hv : _validate_and_normalize raw with
    | none => simp only [runCandidates, hv]; exact ih seen i
    | some norm =>
      simp only [runCandidates, hv]
      split
      · exact ih seen i
      · rw [ih]

/-- C10: for every oracle environment (LLM failures, malformed or non-list
responses, per-candidate persistence failures) and every user and message,
`extract_and_store` returns normally (`Except.ok`, never an uncaught
exception), and the upsert calls it makes do not depend on which persistence
calls fail — a failing upsert skips only its own candidate, never the rest. -/
theorem c10_never_raises (env : ExtractEnv) (u m : PyStr) (f g : Nat → Bool) :
    (∃ calls, extract_and_store env u m = Except.ok calls) ∧
    extract_and_store { env with upsertRaises := f } u m
      = extract_and_store { env with upsertRaises := g } u m := by
  constructor
  · unfold extract_and_store
    (repeat' (first | split | dsimp only)) <;> exact ⟨_, rfl⟩
  · unfold extract_and_store
    dsimp only
    split
    · rfl
    split
    · rfl
    cases env.llm with
    | error e => rfl
    | ok response =>
      dsimp only
      split <;>
        first
          | rfl
          | exact congrArg Except.ok (runCandidates_raises_indep f g u _ [] 0)
